import Mathlib

/-!
# Verification of the ferreteria-bot storage and ingestion subsystem

Shallow embedding of the Python sources `database.py`, `ferreteria_bot.py`
(and the query used by `dashboard.py`) of the `ferreteria-bot` repository,
together with proofs about the embedded functions.

Text is modelled as `List Char`, Python floats and SQL decimals as `ℚ`,
SQL timestamps as a (day, seconds-in-day) pair, fallible Python code as
`Except PyExc`.
-/

namespace Ferreteria

/-! ## Python string utilities -/

/-- One character of Python `str.lower()`, restricted to ASCII letters and the
Spanish accented letters that occur in this code base. -/
def pyLowerChar (c : Char) : Char :=
  if 'A' ≤ c ∧ c ≤ 'Z' then Char.ofNat (c.toNat + 32)
  else if c = 'Á' then 'á'
  else if c = 'É' then 'é'
  else if c = 'Í' then 'í'
  else if c = 'Ó' then 'ó'
  else if c = 'Ú' then 'ú'
  else if c = 'Ñ' then 'ñ'
  else if c = 'Ü' then 'ü'
  else c

/-- Python `texto.lower()` (character-wise). -/
def pyLower (t : List Char) : List Char := t.map pyLowerChar

/-- `needle` occurs at the start of `hay`. -/
def startsWithList : List Char → List Char → Bool
  | [], _ => true
  | _ :: _, [] => false
  | a :: as, b :: bs => a = b && startsWithList as bs

/-- Python `needle in hay` substring test. -/
def pyIn (needle : List Char) : List Char → Bool
  | [] => needle.isEmpty
  | c :: t => startsWithList needle (c :: t) || pyIn needle t

/-! ## `normalizar_categoria` (database.py lines 240-253) -/

/-- Condition of the first `if`: `'verde' in texto_lower or 'agricultura' in texto_lower`. -/
def condVerde (t : List Char) : Bool :=
  pyIn "verde".data (pyLower t) || pyIn "agricultura".data (pyLower t)

/-- Condition of the first `elif`:
`'rojo' in texto_lower or 'construcción' in texto_lower or 'construccion' in texto_lower`. -/
def condRojo (t : List Char) : Bool :=
  pyIn "rojo".data (pyLower t) || pyIn "construcción".data (pyLower t)
    || pyIn "construccion".data (pyLower t)

/-- Condition of the second `elif`: `'amarillo' in texto_lower or 'pintura' in texto_lower`. -/
def condAmarillo (t : List Char) : Bool :=
  pyIn "amarillo".data (pyLower t) || pyIn "pintura".data (pyLower t)

/-- `normalizar_categoria(texto)` from database.py (duplicated verbatim in
ferreteria_bot.py): case-insensitive keyword rules in fixed order. -/
def normalizar_categoria (t : List Char) : String :=
  if condVerde t then "Verde-Agricultura"
  else if condRojo t then "Rojo-Construcción"
  else if condAmarillo t then "Amarillo-Pintura"
  else "Sin categoría"

/-! ## `extraer_precio_de_texto` (database.py lines 215-237)

The three regular expressions are embedded as bespoke scanners with Python
`re.search` semantics: leftmost starting position, greedy quantifiers with
backtracking where a mandatory part follows. -/

/-- Value of a digit string read in base 10. -/
def digitsVal (ds : List Char) : ℕ :=
  ds.foldl (fun a c => 10 * a + (c.toNat - 48)) 0

/-- Python `float()` restricted to the unsigned decimal literals that the
capture groups of the three patterns can produce (digits, at most one dot;
no sign, exponent or spaces). Returns `none` where `float()` raises
`ValueError`. -/
def pyFloat (s : List Char) : Option ℚ :=
  let intPart := s.takeWhile Char.isDigit
  let rest := s.dropWhile Char.isDigit
  match rest with
  | [] => if intPart.isEmpty then none else some (digitsVal intPart)
  | '.' :: fr =>
      if fr.all Char.isDigit ∧ ¬(intPart.isEmpty ∧ fr.isEmpty) then
        some ((digitsVal intPart : ℚ) + (digitsVal fr : ℚ) / 10 ^ fr.length)
      else none
  | _ => none

/-- `precio_str = match.group(1).replace(',', '')`. -/
def stripCommas (s : List Char) : List Char := s.filter (fun c => c ≠ ',')

/-- `\d{1,n}` anchored at the head, taking exactly `n` characters:
succeeds when the first `n` characters are digits. -/
def takeDigitsN : ℕ → List Char → Option (List Char × List Char)
  | 0, s => some ([], s)
  | _ + 1, [] => none
  | n + 1, c :: t =>
      if c.isDigit then (takeDigitsN n t).map (fun p => (c :: p.1, p.2)) else none

/-- All ways `(?:,\d{3})*` can match at the head, most repetitions first
(Python's backtracking order for a greedy star). -/
def repGroups : List Char → List (List Char × List Char)
  | ',' :: a :: b :: c :: t =>
      if a.isDigit && b.isDigit && c.isDigit then
        (repGroups t).map (fun p => (',' :: a :: b :: c :: p.1, p.2))
          ++ [([], ',' :: a :: b :: c :: t)]
      else [([], ',' :: a :: b :: c :: t)]
  | s => [([], s)]

/-- All ways `(?:\.\d{2})?` can match at the head, presence first
(Python's backtracking order for a greedy option). -/
def fracOpts : List Char → List (List Char × List Char)
  | '.' :: a :: b :: t =>
      if a.isDigit && b.isDigit then [(['.', a, b], t), ([], '.' :: a :: b :: t)]
      else [([], '.' :: a :: b :: t)]
  | s => [([], s)]

/-- All matches of `\d{1,3}(?:,\d{3})*(?:\.\d{2})?` anchored at the head, in
Python's backtracking preference order (capture, remaining text). -/
def numCands (s : List Char) : List (List Char × List Char) :=
  ([3, 2, 1].filterMap (fun n => takeDigitsN n s)).flatMap
    (fun d => (repGroups d.2).flatMap
      (fun g => (fracOpts g.2).map (fun f => (d.1 ++ g.1 ++ f.1, f.2))))

/-- The greedy (first-preference) match of the number core; with no mandatory
part after it, this is the match Python commits to. -/
def numCore (s : List Char) : Option (List Char) :=
  (numCands s).head?.map Prod.fst

/-- `re.search` for pattern 1, `\$\s*(\d{1,3}(?:,\d{3})*(?:\.\d{2})?)`:
at each position a `$`, then greedily skipped whitespace, then the number
core.  (Giving back whitespace cannot help: the core must start with a
digit, which is not whitespace.) -/
def searchP1 : List Char → Option (List Char)
  | [] => none
  | c :: t =>
      if c = '$' then
        match numCore (t.dropWhile Char.isWhitespace) with
        | some cap => some cap
        | none => searchP1 t
      else searchP1 t

/-- `\s*\$` anchored at the head: skip maximal whitespace, require `$`.
(Giving back whitespace cannot help: whitespace is not `$`.) -/
def wsDollar (s : List Char) : Bool :=
  match s.dropWhile Char.isWhitespace with
  | '$' :: _ => true
  | _ => false

/-- Pattern 2 anchored at one position: try the number-core candidates in
backtracking order, keeping the first whose remainder matches `\s*\$`. -/
def p2At (s : List Char) : Option (List Char) :=
  (numCands s).findSome? (fun p => if wsDollar p.2 then some p.1 else none)

/-- `re.search` for pattern 2, `(\d{1,3}(?:,\d{3})*(?:\.\d{2})?)\s*\$`. -/
def searchP2 : List Char → Option (List Char)
  | [] => none
  | c :: t =>
      match p2At (c :: t) with
      | some cap => some cap
      | none => searchP2 t

/-- `\d+(?:\.\d{2})?` anchored at the head (greedy). -/
def numCore3 (s : List Char) : Option (List Char) :=
  let d := s.takeWhile Char.isDigit
  if d.isEmpty then none
  else
    match fracOpts (s.dropWhile Char.isDigit) with
    | f :: _ => some (d ++ f.1)
    | [] => some d

/-- `re.search` for pattern 3, `(\d+(?:\.\d{2})?)`. -/
def searchP3 : List Char → Option (List Char)
  | [] => none
  | c :: t => if c.isDigit then numCore3 (c :: t) else searchP3 t

/-- The `for patron in patrones` loop of `extraer_precio_de_texto`: on a
match, strip commas and attempt `float()`; on `ValueError` (`continue`) or
no match, move to the next pattern. -/
def tryPatterns : List (List Char → Option (List Char)) → List Char → Option ℚ
  | [], _ => none
  | p :: ps, t =>
      match p t with
      | some cap =>
          match pyFloat (stripCommas cap) with
          | some v => some v
          | none => tryPatterns ps t
      | none => tryPatterns ps t

/-- `extraer_precio_de_texto(texto)` from database.py (duplicated verbatim
in ferreteria_bot.py). -/
def extraer_precio_de_texto (t : List Char) : Option ℚ :=
  tryPatterns [searchP1, searchP2, searchP3] t

/-- One pattern stage in isolation: search, strip commas, parse (`none`
both when the pattern does not match and when `float()` raises). -/
def tryP (search : List Char → Option (List Char)) (t : List Char) : Option ℚ :=
  match search t with
  | some cap => pyFloat (stripCommas cap)
  | none => none

/-- Shape of every capture the bare-number pattern can produce: a nonempty
digit run, optionally followed by a dot and exactly two digits. -/
def goodCap (cap : List Char) : Prop :=
  ∃ d f, cap = d ++ f ∧ d ≠ [] ∧ (∀ c ∈ d, c.isDigit = true) ∧
    (f = [] ∨ ∃ a b, f = ['.', a, b] ∧ a.isDigit = true ∧ b.isDigit = true)

/-! ## Data model -/

/-- A SQL TIMESTAMP value, split as the day (what SQL `DATE()` extracts)
and the time within the day. -/
structure Ts where
  day : ℤ
  sec : ℕ
deriving DecidableEq, Repr

/-- `b ≤ a` in timestamp order; the comparison behind
`ORDER BY fecha_hora DESC`. -/
def tsGe (a b : Ts) : Bool :=
  b.day < a.day || (a.day = b.day && b.sec ≤ a.sec)

/-- A row of the `productos` table (the PostgreSQL schema of database.py
lines 71-82 and the SQLite schema of ferreteria_bot.py lines 44-55 declare
the same columns). -/
structure Producto where
  id : ℕ
  precio : ℚ
  categoria : String
  codigo : Option String
  descripcion : String
  fecha_hora : Ts
  usuario_telegram : ℤ
  usuario_nombre : Option String
deriving DecidableEq, Repr

/-- Insert a row into a list already ordered by descending timestamp. -/
def insertDesc (r : Producto) : List Producto → List Producto
  | [] => [r]
  | x :: xs =>
      if tsGe r.fecha_hora x.fecha_hora then r :: x :: xs else x :: insertDesc r xs

/-- Semantics of `ORDER BY fecha_hora DESC`: a deterministic SQL-conformant
refinement (descending timestamp; both engines receive the identical
clause, so the model refines both the same way). -/
def orderByFechaDesc (rows : List Producto) : List Producto :=
  rows.foldr insertDesc []

/-! ## Connections and exceptions -/

/-- The Python exception classes that matter to the storage layer:
`psycopg2.Error` is what its `except` arms catch; `TypeError` (raised by
entering a `with` block on `None`) is not a `psycopg2.Error`. -/
inductive PyExc where
  | typeError
  | psycopg2Error
deriving DecidableEq, Repr

/-- `FerreteriaDB.get_connection` (database.py lines 40-58): attempts
`psycopg2.connect`; both `except` arms catch any failure, print it, and
return `None`.  `reachable` stands for the connection attempt succeeding. -/
def get_connection (reachable : Bool) : Option Unit :=
  if reachable then some () else none

/-- The `try` block of `FerreteriaDB.init_database` (lines 62-97): with a
`None` connection it prints an error and returns (schema not created); on a
live connection `CREATE TABLE IF NOT EXISTS` plus the two
`CREATE INDEX IF NOT EXISTS` run and it returns normally. -/
def init_database_try (reachable : Bool) : Except PyExc Bool :=
  match get_connection reachable with
  | none => Except.ok false
  | some _ => Except.ok true

/-- `FerreteriaDB.init_database` (lines 60-102): the
`except psycopg2.Error` / `except Exception` handlers turn every exception
of the `try` block into a printed message and a normal return. -/
def init_database (reachable : Bool) : Bool :=
  match init_database_try reachable with
  | Except.ok b => b
  | Except.error _ => false

/-- `FerreteriaDB.__init__` (lines 10-15): `_get_db_params` then
`init_database`.  It raises exactly what its body raises — nothing, in the
unreachable-backend case — and the payload records whether the PostgreSQL
schema actually got created. -/
def ferreteriaDB_new (reachable : Bool) : Except PyExc Bool :=
  Except.ok (init_database reachable)

/-! ## Backend selection at bot startup (ferreteria_bot.py lines 29-74) -/

/-- Outcome of the module-level backend selection. -/
structure Startup where
  USING_POSTGRES : Bool
  sqliteFallbackReady : Bool
deriving DecidableEq, Repr

/-- `try: db = FerreteriaDB(); USING_POSTGRES = True
except Exception: USING_POSTGRES = False; ...; init_sqlite()`. -/
def bot_startup (reachable : Bool) : Startup :=
  match ferreteriaDB_new reachable with
  | Except.ok _ => ⟨true, false⟩
  | Except.error _ => ⟨false, true⟩

/-! ## `insertar_producto` and the query methods, with exceptions -/

/-- `FerreteriaDB.insertar_producto` (lines 104-128).
`with self.get_connection() as conn` raises `TypeError` when
`get_connection` returned `None` — before the `if conn is None: return
False` guard inside the block can run — and the only handler is
`except psycopg2.Error`.  `insertOk` stands for the INSERT succeeding on a
live connection; a failing INSERT raises `psycopg2.Error`, which the
handler turns into `return False`. -/
def insertar_producto (reachable : Bool) (insertOk : Bool) : Except PyExc Bool :=
  let tryBlock : Except PyExc Bool :=
    match get_connection reachable with
    | none => Except.error PyExc.typeError
    | some _ => if insertOk then Except.ok true else Except.error PyExc.psycopg2Error
  match tryBlock with
  | Except.error PyExc.psycopg2Error => Except.ok false
  | r => r

/-- Shared skeleton of `obtener_ventas_hoy`, `obtener_total_ventas_hoy`,
`obtener_productos_por_categoria` and `obtener_todos_productos`
(lines 130-212): the same `with self.get_connection() as conn` entry and
the same single `except psycopg2.Error` handler returning an empty default
(`[]`, `0.0`, `{}`). -/
def query_method {α : Type} (reachable queryOk : Bool) (result dflt : α) :
    Except PyExc α :=
  let tryBlock : Except PyExc α :=
    match get_connection reachable with
    | none => Except.error PyExc.typeError
    | some _ => if queryOk then Except.ok result else Except.error PyExc.psycopg2Error
  match tryBlock with
  | Except.error PyExc.psycopg2Error => Except.ok dflt
  | r => r

/-! ## Healthy-path SQL semantics of the aggregation queries -/

/-- SQL `SUM(precio)`: `NULL` (`none`) when no row is selected. -/
def sqlSum (l : List ℚ) : Option ℚ :=
  match l with
  | [] => none
  | _ => some l.sum

/-- The query of `obtener_total_ventas_hoy` (lines 152-172) on a live
connection: `SELECT COALESCE(SUM(precio), 0) FROM productos WHERE
DATE(fecha_hora) = hoy` followed by Python's
`float(resultado) if resultado else 0.0` (a zero `Decimal` is falsy).
`hoy` is the date the method computes with `datetime.date.today()`. -/
def obtener_total_ventas_hoy (rows : List Producto) (hoy : ℤ) : ℚ :=
  let seleccion := rows.filter (fun r => r.fecha_hora.day = hoy)
  let resultado : ℚ := (sqlSum (seleccion.map (fun r => r.precio))).getD 0
  if resultado ≠ 0 then resultado else 0

/-- The query of `obtener_todos_productos` (lines 199-212) on a live
connection: `SELECT * FROM productos ORDER BY fecha_hora DESC`. -/
def obtener_todos_productos (rows : List Producto) : List Producto :=
  orderByFechaDesc rows

/-! ## The two backend implementations (refinement claim C3) -/

/-- Rounding of PostgreSQL `DECIMAL(10,2)` for the nonnegative prices this
system stores: to the nearest cent, halves rounding up. -/
def roundCents (p : ℚ) : ℚ := ((round (p * 100) : ℤ) : ℚ) / 100

/-- Common shape of both engines' `productos` table state: the stored rows
plus the next auto-assigned id (`SERIAL` / `AUTOINCREMENT`, both starting
at 1). -/
structure DBState where
  rows : List Producto
  nextId : ℕ
deriving DecidableEq, Repr

def emptyDB : DBState := ⟨[], 1⟩

/-- One logical storage operation: an insert (tagged with the insertion
instant, which both engines stamp through their `CURRENT_TIMESTAMP` column
default) or a full query. -/
inductive Op where
  | insertar (precio : ℚ) (categoria : String) (codigo : Option String)
      (descripcion : String) (usuario : ℤ) (nombre : Option String) (ts : Ts)
  | queryAll
deriving DecidableEq, Repr

/-- `INSERT INTO productos ...` against the PostgreSQL schema
(database.py lines 71-82 and 115-119): the `precio DECIMAL(10,2)` column
stores the price rounded to two decimals. -/
def pgInsert (st : DBState) (p : ℚ) (cat : String) (cod : Option String)
    (desc : String) (usr : ℤ) (nom : Option String) (ts : Ts) : DBState :=
  ⟨st.rows ++ [⟨st.nextId, roundCents p, cat, cod, desc, ts, usr, nom⟩], st.nextId + 1⟩

/-- `INSERT INTO productos ...` against the SQLite schema
(ferreteria_bot.py lines 44-55 and 63-66): the `precio REAL` column stores
the price as given.  (The binary double representation is abstracted; it
never coincides with the cent-rounded value when the two differ by half a
cent or more, so the divergence below is robust to that abstraction.) -/
def sqliteInsert (st : DBState) (p : ℚ) (cat : String) (cod : Option String)
    (desc : String) (usr : ℤ) (nom : Option String) (ts : Ts) : DBState :=
  ⟨st.rows ++ [⟨st.nextId, p, cat, cod, desc, ts, usr, nom⟩], st.nextId + 1⟩

/-- Run an operation sequence against a backend given by its insert
implementation, collecting the result of each `queryAll`
(`SELECT * FROM productos ORDER BY fecha_hora DESC`, issued identically by
database.py line 207 and dashboard.py lines 78-94 for both engines). -/
def runOps
    (ins : DBState → ℚ → String → Option String → String → ℤ → Option String → Ts → DBState) :
    List Op → DBState → List (List Producto)
  | [], _ => []
  | Op.insertar p cat cod desc usr nom ts :: ops, st =>
      runOps ins ops (ins st p cat cod desc usr nom ts)
  | Op.queryAll :: ops, st => orderByFechaDesc st.rows :: runOps ins ops st

/-- The PostgreSQL implementation run from an empty table. -/
def pgRun (ops : List Op) : List (List Producto) := runOps pgInsert ops emptyDB

/-- The SQLite implementation run from an empty table. -/
def sqliteRun (ops : List Op) : List (List Producto) := runOps sqliteInsert ops emptyDB

/-- Every insert of the sequence carries a price that is a whole number of
cents (at most two decimal places): in lowest terms its denominator
divides 100. -/
def centPrices : List Op → Bool
  | [] => true
  | Op.insertar p _ _ _ _ _ _ :: ops => decide (p.den ∣ 100) && centPrices ops
  | Op.queryAll :: ops => centPrices ops

/-! ## The ingestion gate of `handle_photo` (ferreteria_bot.py 199-243) -/

/-- Result of the persistence section of `handle_photo`: the table contents
afterwards and the `guardado_exitoso` flag that selects between the
"registrado exitosamente" and the "no guardado" reply. -/
structure IngestResult where
  store : List Producto
  guardado_exitoso : Bool
deriving DecidableEq, Repr

/-- The `# Guardar en base de datos` section of `handle_photo`:
`if precio and precio > 0:` (Python truthiness — `None` and `0.0` are both
falsy) gates the insert call; `insertOk` is the boolean returned by
`db.insertar_producto` / `insertar_producto_sqlite`, which appends the row
built from the parsed fields exactly when it reports success. -/
def handle_photo_guardar (precio : Option ℚ) (categoria : String) (codigo : String)
    (descripcion : String) (user_id : ℤ) (user_name : String) (ts : Ts) (nextId : ℕ)
    (store : List Producto) (insertOk : Bool) : IngestResult :=
  match precio with
  | none => ⟨store, false⟩
  | some p =>
      if p ≠ 0 ∧ 0 < p then
        if insertOk then
          ⟨store ++
            [⟨nextId, p, categoria, some codigo, descripcion, ts, user_id, some user_name⟩],
            true⟩
        else ⟨store, false⟩
      else ⟨store, false⟩

/-! ## Connection configuration (claim C9) -/

/-- The environment variables the connection code reads (`none` = unset). -/
structure Env where
  DATABASE_URL : Option String
  DB_POSTGRESDB_HOST : Option String
  DB_POSTGRESDB_PORT : Option String
  DB_POSTGRESDB_DATABASE : Option String
  DB_POSTGRESDB_USER : Option String
  DB_POSTGRESDB_PASSWORD : Option String
deriving DecidableEq, Repr

/-- Which connection descriptor is handed to `psycopg2.connect`. -/
inductive ConnSource where
  | fromUrl (u : String)
  | fromEnvVars (host port database user password : String)
deriving DecidableEq, Repr

/-- `FerreteriaDB._get_db_params` (lines 17-38): parameters derived from
`DATABASE_URL` when it is set (the `urlparse` field extraction is kept
abstract as the URL itself), otherwise the five discrete variables with
their documented defaults. -/
def get_db_params (e : Env) : ConnSource :=
  match e.DATABASE_URL with
  | some u => ConnSource.fromUrl u
  | none =>
      ConnSource.fromEnvVars (e.DB_POSTGRESDB_HOST.getD "localhost")
        (e.DB_POSTGRESDB_PORT.getD "5432") (e.DB_POSTGRESDB_DATABASE.getD "ferreteria")
        (e.DB_POSTGRESDB_USER.getD "postgres") (e.DB_POSTGRESDB_PASSWORD.getD "")

/-- The descriptor `get_connection` (lines 40-58) passes to
`psycopg2.connect`: `DATABASE_URL` directly when it is set, otherwise the
stored `self.db_params` (computed by `_get_db_params` from the same
environment). -/
def get_connection_source (e : Env) : ConnSource :=
  match e.DATABASE_URL with
  | some u => ConnSource.fromUrl u
  | none => get_db_params e

/-! # Theorems -/

/-- C1 (code evaluation): at a startup where the PostgreSQL backend is
unreachable, `FerreteriaDB.__init__` swallows the connection failure
(`get_connection` returns `None`; `init_database` prints and returns), so
no exception reaches the module-level `try`, the SQLite fallback branch is
never taken, `USING_POSTGRES` is `True`, and no schema was initialized
anywhere — contradicting the claim that the fallback branch runs with
`USING_POSTGRES = False`. -/
theorem C1_unreachable_backend_skips_fallback :
    bot_startup false = ⟨true, false⟩ ∧ init_database false = false :=
  ⟨rfl, rfl⟩

/-- C2 (code evaluation): when `get_connection` returns `None`,
`insertar_producto` raises `TypeError` (entering `with None`), which the
`except psycopg2.Error` handler does not catch — it does not return
`False`; the same holds for the query methods.  Only a `psycopg2.Error`
on a live connection is converted to the boolean failure signal. -/
theorem C2_insert_raises_when_connection_none :
    insertar_producto false true = Except.error PyExc.typeError ∧
    insertar_producto false false = Except.error PyExc.typeError ∧
    insertar_producto true false = Except.ok false ∧
    insertar_producto true true = Except.ok true ∧
    query_method false true (1 : ℕ) 0 = Except.error PyExc.typeError ∧
    query_method true false (1 : ℕ) 0 = Except.ok 0 :=
  ⟨rfl, rfl, rfl, rfl, rfl, rfl⟩

/-- C9: connection construction uses `DATABASE_URL` whenever it is set —
both in `get_connection` and in the stored `db_params` — and the discrete
host/port/database/user/password variables (with their defaults) are used
only when `DATABASE_URL` is absent. -/
theorem C9_database_url_precedence :
    (∀ e u, e.DATABASE_URL = some u →
        get_connection_source e = ConnSource.fromUrl u ∧
        get_db_params e = ConnSource.fromUrl u) ∧
    (∀ e, e.DATABASE_URL = none →
        get_connection_source e =
          ConnSource.fromEnvVars (e.DB_POSTGRESDB_HOST.getD "localhost")
            (e.DB_POSTGRESDB_PORT.getD "5432") (e.DB_POSTGRESDB_DATABASE.getD "ferreteria")
            (e.DB_POSTGRESDB_USER.getD "postgres") (e.DB_POSTGRESDB_PASSWORD.getD "")) := by
  constructor
  · intro e u h
    constructor <;> simp [get_connection_source, get_db_params, h]
  · intro e h
    simp [get_connection_source, get_db_params, h]

/-- Witness for C9 at a concrete environment where both the URL form and
all five discrete parameters are set: the URL form is used. -/
theorem C9_witness :
    get_connection_source
        ⟨some "postgresql://u:pw@h:5432/db", some "h2", some "5433", some "db2", some "u2",
          some "pw2"⟩ =
      ConnSource.fromUrl "postgresql://u:pw@h:5432/db" :=
  (C9_database_url_precedence.1
    ⟨some "postgresql://u:pw@h:5432/db", some "h2", some "5433", some "db2", some "u2",
      some "pw2"⟩ "postgresql://u:pw@h:5432/db" rfl).1

/-- C7: on a live connection, `obtener_total_ventas_hoy` returns exactly
the sum of the prices of the rows whose timestamp falls on the queried
date (the `COALESCE` and the Python truthiness test collapse to that sum),
0 when no row has that date; concretely, with rows priced 10, 20, 30 today
and a 999-priced row dated another day, the total is 60. -/
theorem C7_total_is_sum_for_date :
    (∀ (rows : List Producto) (hoy : ℤ),
        obtener_total_ventas_hoy rows hoy =
          ((rows.filter (fun r => r.fecha_hora.day = hoy)).map (fun r => r.precio)).sum) ∧
    (∀ (rows : List Producto) (hoy : ℤ),
        rows.filter (fun r => r.fecha_hora.day = hoy) = [] →
        obtener_total_ventas_hoy rows hoy = 0) ∧
    obtener_total_ventas_hoy
        [⟨1, 10, "Verde-Agricultura", none, "a", ⟨5, 10⟩, 7, none⟩,
          ⟨2, 20, "Rojo-Construcción", none, "b", ⟨5, 20⟩, 7, none⟩,
          ⟨3, 30, "Amarillo-Pintura", none, "c", ⟨5, 30⟩, 7, none⟩,
          ⟨4, 999, "Sin categoría", none, "d", ⟨4, 40⟩, 7, none⟩] 5 = 60 := by
  have key : ∀ (rows : List Producto) (hoy : ℤ),
      obtener_total_ventas_hoy rows hoy =
        ((rows.filter (fun r => r.fecha_hora.day = hoy)).map (fun r => r.precio)).sum := by
    intro rows hoy
    simp only [obtener_total_ventas_hoy, sqlSum]
    cases hl : (rows.filter (fun r => r.fecha_hora.day = hoy)).map (fun r => r.precio) with
    | nil => simp
    | cons a l =>
        show (if ((a :: l).sum : ℚ) ≠ 0 then (a :: l).sum else 0) = (a :: l).sum
        split_ifs with h
        · rfl
        · push_neg at h
          exact h.symm
  refine ⟨key, ?_, ?_⟩
  · intro rows hoy h
    rw [key, h]
    rfl
  · rw [key]
    norm_num [List.filter]

/-- C6: the category normalizer maps every text to one of the four fixed
categories, by the case-insensitive substring conditions in their fixed
priority order (green/agriculture, then red/construction, then
yellow/paint), first match winning and no match giving "Sin categoría";
in particular "Rojo - Construcción" normalizes to "Rojo-Construcción"
and "azul" to "Sin categoría". -/
theorem C6_normalizar_fixed_categories :
    (∀ t, normalizar_categoria t ∈
        ["Verde-Agricultura", "Rojo-Construcción", "Amarillo-Pintura", "Sin categoría"]) ∧
    (∀ t, condVerde t = true → normalizar_categoria t = "Verde-Agricultura") ∧
    (∀ t, condVerde t = false → condRojo t = true →
        normalizar_categoria t = "Rojo-Construcción") ∧
    (∀ t, condVerde t = false → condRojo t = false → condAmarillo t = true →
        normalizar_categoria t = "Amarillo-Pintura") ∧
    (∀ t, condVerde t = false → condRojo t = false → condAmarillo t = false →
        normalizar_categoria t = "Sin categoría") ∧
    normalizar_categoria "Rojo - Construcción".data = "Rojo-Construcción" ∧
    normalizar_categoria "azul".data = "Sin categoría" := by
  refine ⟨?_, ?_, ?_, ?_, ?_, by decide, by decide⟩
  · intro t
    unfold normalizar_categoria
    split_ifs <;> simp
  · intro t h
    simp [normalizar_categoria, h]
  · intro t h1 h2
    simp [normalizar_categoria, h1, h2]
  · intro t h1 h2 h3
    simp [normalizar_categoria, h1, h2, h3]
  · intro t h1 h2 h3
    simp [normalizar_categoria, h1, h2, h3]

/-- Witness for C6 at the concrete input "Rojo - Construcción": the green
rule does not fire, the red rule does, and the result is the red
category. -/
theorem C6_witness :
    normalizar_categoria "Rojo - Construcción".data = "Rojo-Construcción" :=
  C6_normalizar_fixed_categories.2.2.1 "Rojo - Construcción".data (by decide) (by decide)

/-- C4: the ingestion gate of `handle_photo` rejects a missing price and
any price ≤ 0 — the store is unchanged and `guardado_exitoso` is `False`,
selecting the "no guardado" reply — and therefore every record the
pipeline ever adds to a store of positive-price records has a positive
price. -/
theorem C4_price_gate :
    (∀ cat cod desc uid uname ts nid store ok,
        handle_photo_guardar none cat cod desc uid uname ts nid store ok = ⟨store, false⟩) ∧
    (∀ p cat cod desc uid uname ts nid store ok, p ≤ 0 →
        handle_photo_guardar (some p) cat cod desc uid uname ts nid store ok =
          ⟨store, false⟩) ∧
    (∀ precio cat cod desc uid uname ts nid store ok r,
        (∀ s ∈ store, 0 < s.precio) →
        r ∈ (handle_photo_guardar precio cat cod desc uid uname ts nid store ok).store →
        0 < r.precio) := by
  refine ⟨fun _ _ _ _ _ _ _ _ _ => rfl, ?_, ?_⟩
  · intro p cat cod desc uid uname ts nid store ok h
    have hng : ¬(p ≠ 0 ∧ 0 < p) := fun hc => absurd hc.2 (not_lt.mpr h)
    simp [handle_photo_guardar, hng]
  · intro precio cat cod desc uid uname ts nid store ok r hstore hr
    cases precio with
    | none => exact hstore r hr
    | some p =>
        by_cases hp : p ≠ 0 ∧ 0 < p
        · cases ok with
          | false => simp [handle_photo_guardar, hp] at hr; exact hstore r hr
          | true =>
              simp [handle_photo_guardar, hp] at hr
              rcases hr with hr | hr
              · exact hstore r hr
              · rw [hr]
                exact hp.2
        · simp [handle_photo_guardar, hp] at hr
          exact hstore r hr

/-- Witness for C4 at the spec's concrete rejected prices 0 and −5 (and at
a positive-price store for the invariant conjunct). -/
theorem C4_witness :
    handle_photo_guardar (some 0) "c" "k" "d" 1 "u" ⟨0, 0⟩ 1 [] true = ⟨[], false⟩ ∧
    handle_photo_guardar (some (-5)) "c" "k" "d" 1 "u" ⟨0, 0⟩ 1 [] true = ⟨[], false⟩ :=
  ⟨C4_price_gate.2.1 0 "c" "k" "d" 1 "u" ⟨0, 0⟩ 1 [] true le_rfl,
    C4_price_gate.2.1 (-5) "c" "k" "d" 1 "u" ⟨0, 0⟩ 1 [] true (by norm_num)⟩

/-! ## Sorting lemmas for `ORDER BY fecha_hora DESC` -/

lemma tsGe_total (a b : Ts) : tsGe a b = true ∨ tsGe b a = true := by
  simp only [tsGe, Bool.or_eq_true, Bool.and_eq_true, decide_eq_true_eq]
  omega

lemma tsGe_trans {a b c : Ts} (h1 : tsGe a b = true) (h2 : tsGe b c = true) :
    tsGe a c = true := by
  simp only [tsGe, Bool.or_eq_true, Bool.and_eq_true, decide_eq_true_eq] at h1 h2 ⊢
  omega

lemma insertDesc_perm (r : Producto) (l : List Producto) :
    (insertDesc r l).Perm (r :: l) := by
  induction l with
  | nil => exact List.Perm.refl _
  | cons x xs ih =>
      by_cases h : tsGe r.fecha_hora x.fecha_hora
      · simp only [insertDesc, h, if_true]
        exact List.Perm.refl _
      · simp only [insertDesc, h, if_false]
        exact (ih.cons x).trans (List.Perm.swap r x xs)

lemma insertDesc_mem {r b : Producto} {l : List Producto} (h : b ∈ insertDesc r l) :
    b = r ∨ b ∈ l := by
  have := (insertDesc_perm r l).mem_iff.mp h
  simpa using this

lemma insertDesc_pairwise (r : Producto) (l : List Producto)
    (h : l.Pairwise (fun a b => tsGe a.fecha_hora b.fecha_hora = true)) :
    (insertDesc r l).Pairwise (fun a b => tsGe a.fecha_hora b.fecha_hora = true) := by
  induction l with
  | nil => simp [insertDesc]
  | cons x xs ih =>
      rcases List.pairwise_cons.mp h with ⟨hx, hxs⟩
      by_cases hc : tsGe r.fecha_hora x.fecha_hora
      · simp only [insertDesc, hc, if_true]
        refine List.pairwise_cons.mpr ⟨?_, h⟩
        intro b hb
        rcases List.mem_cons.mp hb with rfl | hb
        · exact hc
        · exact tsGe_trans hc (hx b hb)
      · simp only [insertDesc, hc, if_false]
        refine List.pairwise_cons.mpr ⟨?_, ih hxs⟩
        intro b hb
        rcases insertDesc_mem hb with hbr | hb
        · rw [hbr]
          rcases tsGe_total r.fecha_hora x.fecha_hora with ht | ht
          · exact absurd ht hc
          · exact ht
        · exact hx b hb

lemma orderByFechaDesc_perm (rows : List Producto) :
    (orderByFechaDesc rows).Perm rows := by
  induction rows with
  | nil => exact List.Perm.refl _
  | cons x xs ih =>
      have : orderByFechaDesc (x :: xs) = insertDesc x (orderByFechaDesc xs) := rfl
      rw [this]
      exact (insertDesc_perm x _).trans (ih.cons x)

lemma orderByFechaDesc_pairwise (rows : List Producto) :
    (orderByFechaDesc rows).Pairwise (fun a b => tsGe a.fecha_hora b.fecha_hora = true) := by
  induction rows with
  | nil => simp [orderByFechaDesc]
  | cons x xs ih => exact insertDesc_pairwise x _ ih

/-- C8: on a live connection, `obtener_todos_productos` returns a
permutation of all persisted rows (nothing is dropped or duplicated),
ordered so that each row's timestamp is ≥ every later row's timestamp —
descending by timestamp — for every state of the store. -/
theorem C8_queryAll_returns_all_sorted_desc :
    ∀ rows : List Producto,
      (obtener_todos_productos rows).Perm rows ∧
      (obtener_todos_productos rows).Pairwise
        (fun a b => tsGe a.fecha_hora b.fecha_hora = true) :=
  fun rows => ⟨orderByFechaDesc_perm rows, orderByFechaDesc_pairwise rows⟩

/-! ## Backend equivalence (claim C3) -/

lemma roundCents_eq_self {p : ℚ} (h : p.den ∣ 100) : roundCents p = p := by
  obtain ⟨k, hk⟩ := h
  have hkn : k ≠ 0 := by
    rintro rfl
    simp at hk
  have hk0 : (k : ℚ) ≠ 0 := Nat.cast_ne_zero.mpr hkn
  have hden0 : (p.den : ℚ) ≠ 0 := Nat.cast_ne_zero.mpr p.den_nz
  have hc : (100 : ℚ) = (p.den : ℚ) * (k : ℚ) := by exact_mod_cast hk
  have h1 : p * 100 = ((p.num * k : ℤ) : ℚ) := by
    conv_lhs => rw [← Rat.num_div_den p]
    rw [hc]
    push_cast
    field_simp
    ring
  unfold roundCents
  rw [h1, round_intCast]
  push_cast
  rw [hc, mul_div_mul_right _ _ hk0, Rat.num_div_den]

lemma runOps_pg_eq_sqlite (ops : List Op) (st : DBState) (h : centPrices ops = true) :
    runOps pgInsert ops st = runOps sqliteInsert ops st := by
  induction ops generalizing st with
  | nil => rfl
  | cons op ops ih =>
      cases op with
      | insertar p cat cod desc usr nom ts =>
          simp only [centPrices, Bool.and_eq_true, decide_eq_true_eq] at h
          have hins : pgInsert st p cat cod desc usr nom ts =
              sqliteInsert st p cat cod desc usr nom ts := by
            simp [pgInsert, sqliteInsert, roundCents_eq_self h.1]
          simp only [runOps, hins]
          exact ih _ h.2
      | queryAll =>
          simp only [centPrices] at h
          simp only [runOps]
          rw [ih _ h]

/-- C3 counterexample: the identical one-insert-then-queryAll sequence with
price 10.555 returns different field values on the two backends — the
PostgreSQL `DECIMAL(10,2)` column stores 10.56 while the SQLite `REAL`
column stores 10.555 — so the claimed equivalence fails as stated. -/
theorem C3_counterexample :
    pgRun
        [Op.insertar (10555 / 1000) "Rojo-Construcción" (some "A1") "martillo" 1 (some "kev")
            ⟨1, 0⟩,
          Op.queryAll] ≠
      sqliteRun
        [Op.insertar (10555 / 1000) "Rojo-Construcción" (some "A1") "martillo" 1 (some "kev")
            ⟨1, 0⟩,
          Op.queryAll] := by
  intro h
  have h1 : pgRun
      [Op.insertar (10555 / 1000) "Rojo-Construcción" (some "A1") "martillo" 1 (some "kev")
          ⟨1, 0⟩,
        Op.queryAll] =
      [[⟨1, 1056 / 100, "Rojo-Construcción", some "A1", "martillo", ⟨1, 0⟩, 1, some "kev"⟩]] := by
    have hr : roundCents (10555 / 1000) = 1056 / 100 := by
      unfold roundCents
      norm_num [round_eq]
    simp [pgRun, runOps, pgInsert, emptyDB, orderByFechaDesc, insertDesc, hr]
  have h2 : sqliteRun
      [Op.insertar (10555 / 1000) "Rojo-Construcción" (some "A1") "martillo" 1 (some "kev")
          ⟨1, 0⟩,
        Op.queryAll] =
      [[⟨1, 10555 / 1000, "Rojo-Construcción", some "A1", "martillo", ⟨1, 0⟩, 1, some "kev"⟩]] := by
    simp [sqliteRun, runOps, sqliteInsert, emptyDB, orderByFechaDesc, insertDesc]
  rw [h1, h2] at h
  norm_num [Producto.mk.injEq] at h

/-- C3 amended: for every identical operation sequence in which each
inserted price is a whole number of cents (at most two decimal places —
which includes everything the price extractor can produce), the PostgreSQL
and the SQLite implementations return identical query results: same rows,
same order, same field values. -/
theorem C3_amended_cent_prices_equivalent (ops : List Op)
    (h : centPrices ops = true) : pgRun ops = sqliteRun ops :=
  runOps_pg_eq_sqlite ops emptyDB h

/-- Witness for the amended C3 at the concrete sequence
[insert A, insert B, queryAll] with cent-exact prices. -/
theorem C3_amended_witness :
    centPrices
        [Op.insertar 10 "Verde-Agricultura" none "A" 1 none ⟨1, 10⟩,
          Op.insertar 20 "Rojo-Construcción" none "B" 1 none ⟨1, 20⟩,
          Op.queryAll] = true ∧
    pgRun
        [Op.insertar 10 "Verde-Agricultura" none "A" 1 none ⟨1, 10⟩,
          Op.insertar 20 "Rojo-Construcción" none "B" 1 none ⟨1, 20⟩,
          Op.queryAll] =
      sqliteRun
        [Op.insertar 10 "Verde-Agricultura" none "A" 1 none ⟨1, 10⟩,
          Op.insertar 20 "Rojo-Construcción" none "B" 1 none ⟨1, 20⟩,
          Op.queryAll] :=
  ⟨by decide,
    C3_amended_cent_prices_equivalent
      [Op.insertar 10 "Verde-Agricultura" none "A" 1 none ⟨1, 10⟩,
        Op.insertar 20 "Rojo-Construcción" none "B" 1 none ⟨1, 20⟩,
        Op.queryAll]
      (by decide)⟩

/-! ## Price-extractor lemmas (claims C5 and C10) -/

lemma orElse_some' {α : Type} (a : α) (f : Unit → Option α) :
    (some a).orElse f = some a := rfl

lemma orElse_none' {α : Type} (f : Unit → Option α) :
    (none : Option α).orElse f = f () := rfl

lemma tryPatterns_cons (p : List Char → Option (List Char))
    (ps : List (List Char → Option (List Char))) (t : List Char) :
    tryPatterns (p :: ps) t = (tryP p t).orElse (fun _ => tryPatterns ps t) := by
  cases h1 : p t with
  | none => simp [tryPatterns, tryP, h1, orElse_none']
  | some cap =>
      cases h2 : pyFloat (stripCommas cap) with
      | none => simp [tryPatterns, tryP, h1, h2, orElse_none']
      | some v => simp [tryPatterns, tryP, h1, h2, orElse_some']

lemma extraer_eq_chain (t : List Char) :
    extraer_precio_de_texto t =
      (tryP searchP1 t).orElse
        (fun _ => (tryP searchP2 t).orElse (fun _ => tryP searchP3 t)) := by
  have h0 : ∀ o : Option ℚ, o.orElse (fun _ => none) = o := by
    intro o
    cases o <;> rfl
  unfold extraer_precio_de_texto
  rw [tryPatterns_cons, tryPatterns_cons, tryPatterns_cons]
  congr 1
  funext _
  congr 1
  funext _
  exact h0 _

lemma tryP_some {search : List Char → Option (List Char)} {t : List Char} {v : ℚ}
    (h : tryP search t = some v) :
    ∃ cap, search t = some cap ∧ pyFloat (stripCommas cap) = some v := by
  cases hs : search t with
  | none =>
      simp only [tryP, hs] at h
      exact absurd h (by simp)
  | some cap =>
      simp only [tryP, hs] at h
      exact ⟨cap, rfl, h⟩

lemma pyFloat_nonneg {s : List Char} {v : ℚ} (h : pyFloat s = some v) : 0 ≤ v := by
  simp only [pyFloat] at h
  split at h
  · split at h
    · exact absurd h (by simp)
    · obtain rfl := (Option.some.inj h).symm
      positivity
  · split at h
    · obtain rfl := (Option.some.inj h).symm
      positivity
    · exact absurd h (by simp)
  · exact absurd h (by simp)

lemma digit_ne_comma {c : Char} (h : c.isDigit = true) : c ≠ ',' := by
  intro e
  rw [e] at h
  exact absurd h (by decide)

lemma stripCommas_of_no_comma {cap : List Char} (h : ∀ c ∈ cap, c ≠ ',') :
    stripCommas cap = cap :=
  List.filter_eq_self.mpr (fun a ha => by
    simp only [decide_eq_true_eq]
    exact h a ha)

lemma goodCap_no_comma {cap : List Char} (h : goodCap cap) : ∀ c ∈ cap, c ≠ ',' := by
  obtain ⟨d, f, rfl, _, hd, hf⟩ := h
  intro c hc
  rcases List.mem_append.mp hc with hcd | hcf
  · exact digit_ne_comma (hd c hcd)
  · rcases hf with rfl | ⟨a, b, rfl, ha, hb⟩
    · simp at hcf
    · simp only [List.mem_cons, List.not_mem_nil, or_false] at hcf
      rcases hcf with rfl | rfl | rfl
      · decide
      · exact digit_ne_comma ha
      · exact digit_ne_comma hb

lemma takeWhile_append_all {p : Char → Bool} :
    ∀ (d r : List Char), (∀ c ∈ d, p c = true) →
      (d ++ r).takeWhile p = d ++ r.takeWhile p := by
  intro d
  induction d with
  | nil =>
      intro r _
      simp
  | cons c cs ih =>
      intro r hd
      have hc := hd c (List.mem_cons_self c cs)
      simp only [List.cons_append, List.takeWhile_cons, hc, if_true]
      rw [ih r (fun x hx => hd x (List.mem_cons_of_mem c hx))]

lemma dropWhile_append_all {p : Char → Bool} :
    ∀ (d r : List Char), (∀ c ∈ d, p c = true) →
      (d ++ r).dropWhile p = r.dropWhile p := by
  intro d
  induction d with
  | nil =>
      intro r _
      simp
  | cons c cs ih =>
      intro r hd
      have hc := hd c (List.mem_cons_self c cs)
      simp only [List.cons_append, List.dropWhile_cons, hc, if_true]
      exact ih r (fun x hx => hd x (List.mem_cons_of_mem c hx))

lemma pyFloat_goodCap {cap : List Char} (h : goodCap cap) : ∃ v, pyFloat cap = some v := by
  obtain ⟨d, f, rfl, hne, hd, hf⟩ := h
  have hdE : ¬ d.isEmpty = true := by
    simpa [List.isEmpty_iff] using hne
  have hdot : ('.' : Char).isDigit = false := by decide
  rcases hf with rfl | ⟨a, b, rfl, ha, hb⟩
  · refine ⟨(digitsVal d : ℚ), ?_⟩
    rw [List.append_nil]
    have h1 : d.takeWhile Char.isDigit = d := by
      have := takeWhile_append_all (p := Char.isDigit) d [] hd
      simpa using this
    have h2 : d.dropWhile Char.isDigit = [] := by
      have := dropWhile_append_all (p := Char.isDigit) d [] hd
      simpa using this
    simp only [pyFloat, h1, h2]
    rw [if_neg hdE]
  · refine ⟨(digitsVal d : ℚ) + (digitsVal [a, b] : ℚ) / 10 ^ ([a, b] : List Char).length, ?_⟩
    have h1 : (d ++ ['.', a, b]).takeWhile Char.isDigit = d := by
      rw [takeWhile_append_all (p := Char.isDigit) d ['.', a, b] hd]
      simp [List.takeWhile_cons, hdot]
    have h2 : (d ++ ['.', a, b]).dropWhile Char.isDigit = '.' :: [a, b] := by
      rw [dropWhile_append_all (p := Char.isDigit) d ['.', a, b] hd]
      simp [List.dropWhile_cons, hdot]
    simp only [pyFloat, h1, h2]
    rw [if_pos]
    constructor
    · simp [ha, hb]
    · intro hcon
      exact absurd (by simpa [List.isEmpty_iff] using hcon.1) hne

lemma fracOpts_ne_nil (s : List Char) : fracOpts s ≠ [] := by
  unfold fracOpts
  split
  · split <;> simp
  · simp

lemma fracOpts_head_shape {s x l} (h : fracOpts s = x :: l) :
    x.1 = [] ∨ ∃ a b, x.1 = ['.', a, b] ∧ a.isDigit = true ∧ b.isDigit = true := by
  unfold fracOpts at h
  split at h
  · rename_i a b t
    split at h
    · rename_i hab
      have hab' : a.isDigit = true ∧ b.isDigit = true := by simpa using hab
      right
      exact ⟨a, b, by rw [← (List.cons.inj h).1], hab'.1, hab'.2⟩
    · left
      rw [← (List.cons.inj h).1]
  · left
    rw [← (List.cons.inj h).1]

lemma numCore3_goodCap {c : Char} (t : List Char) (hc : c.isDigit = true) :
    ∃ cap, numCore3 (c :: t) = some cap ∧ goodCap cap := by
  have hne : (c :: t).takeWhile Char.isDigit ≠ [] := by
    simp [List.takeWhile_cons, hc]
  have hdE : ¬ ((c :: t).takeWhile Char.isDigit).isEmpty = true := by
    simpa [List.isEmpty_iff] using hne
  cases hfo : fracOpts ((c :: t).dropWhile Char.isDigit) with
  | nil => exact absurd hfo (fracOpts_ne_nil _)
  | cons x l =>
      refine ⟨(c :: t).takeWhile Char.isDigit ++ x.1, ?_, ?_⟩
      · simp only [numCore3, hfo]
        rw [if_neg hdE]
      · exact ⟨(c :: t).takeWhile Char.isDigit, x.1, rfl, hne,
          fun y hy => List.mem_takeWhile_imp hy, fracOpts_head_shape hfo⟩

lemma searchP3_goodCap_of_digit :
    ∀ {t : List Char}, (∃ c ∈ t, c.isDigit = true) →
      ∃ cap, searchP3 t = some cap ∧ goodCap cap := by
  intro t
  induction t with
  | nil =>
      intro h
      simp at h
  | cons c t' ih =>
      intro h
      by_cases hc : c.isDigit = true
      · obtain ⟨cap, h1, h2⟩ := numCore3_goodCap t' hc
        refine ⟨cap, ?_, h2⟩
        simp only [searchP3, hc, if_true]
        exact h1
      · have h' : ∃ x ∈ t', x.isDigit = true := by
          rcases h with ⟨x, hx, hdx⟩
          rcases List.mem_cons.mp hx with rfl | hx
          · exact absurd hdx hc
          · exact ⟨x, hx, hdx⟩
        obtain ⟨cap, h1, h2⟩ := ih h'
        refine ⟨cap, ?_, h2⟩
        simp only [searchP3, hc, if_false]
        exact h1

lemma takeDigitsN_not_digit {c : Char} {t : List Char} (hc : ¬ c.isDigit = true) :
    ∀ n, takeDigitsN (n + 1) (c :: t) = none := by
  intro n
  unfold takeDigitsN
  simp [hc]

lemma numCands_cons_not_digit {c : Char} {t : List Char} (hc : ¬ c.isDigit = true) :
    numCands (c :: t) = [] := by
  have h3 : takeDigitsN 3 (c :: t) = none := takeDigitsN_not_digit hc 2
  have h2 : takeDigitsN 2 (c :: t) = none := takeDigitsN_not_digit hc 1
  have h1 : takeDigitsN 1 (c :: t) = none := takeDigitsN_not_digit hc 0
  simp [numCands, h3, h2, h1]

lemma numCore_some_digit {s cap : List Char} (h : numCore s = some cap) :
    ∃ c ∈ s, c.isDigit = true := by
  cases s with
  | nil =>
      have : numCore ([] : List Char) = none := rfl
      rw [this] at h
      exact absurd h (by simp)
  | cons c t =>
      by_cases hc : c.isDigit = true
      · exact ⟨c, List.mem_cons_self c t, hc⟩
      · rw [numCore, numCands_cons_not_digit hc] at h
        exact absurd h (by simp)

lemma searchP1_digit :
    ∀ {t cap : List Char}, searchP1 t = some cap → ∃ c ∈ t, c.isDigit = true := by
  intro t
  induction t with
  | nil =>
      intro cap h
      simp [searchP1] at h
  | cons c t' ih =>
      intro cap h
      simp only [searchP1] at h
      by_cases hD : c = '$'
      · rw [if_pos hD] at h
        cases hnc : numCore (t'.dropWhile Char.isWhitespace) with
        | some cap2 =>
            obtain ⟨x, hx, hdx⟩ := numCore_some_digit hnc
            exact ⟨x, List.mem_cons_of_mem c ((List.dropWhile_sublist _).subset hx), hdx⟩
        | none =>
            rw [hnc] at h
            obtain ⟨x, hx, hdx⟩ := ih h
            exact ⟨x, List.mem_cons_of_mem c hx, hdx⟩
      · rw [if_neg hD] at h
        obtain ⟨x, hx, hdx⟩ := ih h
        exact ⟨x, List.mem_cons_of_mem c hx, hdx⟩

lemma searchP2_digit :
    ∀ {t cap : List Char}, searchP2 t = some cap → ∃ c ∈ t, c.isDigit = true := by
  intro t
  induction t with
  | nil =>
      intro cap h
      simp [searchP2] at h
  | cons c t' ih =>
      intro cap h
      by_cases hc : c.isDigit = true
      · exact ⟨c, List.mem_cons_self c t', hc⟩
      · have hp : p2At (c :: t') = none := by
          unfold p2At
          rw [numCands_cons_not_digit hc]
          rfl
        simp only [searchP2, hp] at h
        obtain ⟨x, hx, hdx⟩ := ih h
        exact ⟨x, List.mem_cons_of_mem c hx, hdx⟩

lemma searchP3_digit :
    ∀ {t cap : List Char}, searchP3 t = some cap → ∃ c ∈ t, c.isDigit = true := by
  intro t
  induction t with
  | nil =>
      intro cap h
      simp [searchP3] at h
  | cons c t' ih =>
      intro cap h
      by_cases hc : c.isDigit = true
      · exact ⟨c, List.mem_cons_self c t', hc⟩
      · simp only [searchP3, hc, if_false] at h
        obtain ⟨x, hx, hdx⟩ := ih h
        exact ⟨x, List.mem_cons_of_mem c hx, hdx⟩

lemma extraer_some_source {t : List Char} {v : ℚ}
    (h : extraer_precio_de_texto t = some v) :
    ∃ cap, pyFloat (stripCommas cap) = some v ∧
      (searchP1 t = some cap ∨ searchP2 t = some cap ∨ searchP3 t = some cap) := by
  rw [extraer_eq_chain] at h
  cases h1 : tryP searchP1 t with
  | some w =>
      rw [h1, orElse_some'] at h
      obtain ⟨cap, hs, hp⟩ := tryP_some (h1.trans h)
      exact ⟨cap, hp, Or.inl hs⟩
  | none =>
      rw [h1, orElse_none'] at h
      cases h2 : tryP searchP2 t with
      | some w =>
          rw [h2, orElse_some'] at h
          obtain ⟨cap, hs, hp⟩ := tryP_some (h2.trans h)
          exact ⟨cap, hp, Or.inr (Or.inl hs)⟩
      | none =>
          rw [h2, orElse_none'] at h
          obtain ⟨cap, hs, hp⟩ := tryP_some h
          exact ⟨cap, hp, Or.inr (Or.inr hs)⟩

lemma extraer_isSome_of_digit {t : List Char} (h : ∃ c ∈ t, c.isDigit = true) :
    (extraer_precio_de_texto t).isSome = true := by
  rw [extraer_eq_chain]
  cases h1 : tryP searchP1 t with
  | some w =>
      rw [orElse_some']
      rfl
  | none =>
      rw [orElse_none']
      cases h2 : tryP searchP2 t with
      | some w =>
          rw [orElse_some']
          rfl
      | none =>
          rw [orElse_none']
          obtain ⟨cap, h3, hg⟩ := searchP3_goodCap_of_digit h
          obtain ⟨v, hv⟩ := pyFloat_goodCap hg
          have hsc : stripCommas cap = cap := stripCommas_of_no_comma (goodCap_no_comma hg)
          simp [tryP, h3, hsc, hv]

lemma digit_of_extraer_isSome {t : List Char}
    (h : (extraer_precio_de_texto t).isSome = true) : ∃ c ∈ t, c.isDigit = true := by
  obtain ⟨v, hv⟩ := Option.isSome_iff_exists.mp h
  obtain ⟨cap, _, hsearch⟩ := extraer_some_source hv
  rcases hsearch with h1 | h2 | h3
  · exact searchP1_digit h1
  · exact searchP2_digit h2
  · exact searchP3_digit h3

/-- C5: the extractor applies the three embedded patterns in their fixed
order with first successful match-and-parse winning; a capture has its
commas stripped before the numeric parse, a failed parse falls through to
the next pattern (the `orElse` chain over the per-pattern stages), and no
match at all yields `none`; extracting from "$1,234.56" yields 1234.56 and
from "350" yields 350.0. -/
theorem C5_pattern_order_and_examples :
    (∀ t, extraer_precio_de_texto t =
        (tryP searchP1 t).orElse
          (fun _ => (tryP searchP2 t).orElse (fun _ => tryP searchP3 t))) ∧
    (∀ t, searchP1 t = none → searchP2 t = none → searchP3 t = none →
        extraer_precio_de_texto t = none) ∧
    extraer_precio_de_texto "$1,234.56".data = some (1234.56 : ℚ) ∧
    extraer_precio_de_texto "350".data = some (350.0 : ℚ) := by
  refine ⟨extraer_eq_chain, ?_, ?_, ?_⟩
  · intro t h1 h2 h3
    rw [extraer_eq_chain]
    simp [tryP, h1, h2, h3]
  · have h1 : extraer_precio_de_texto "$1,234.56".data =
        some ((digitsVal "1234".data : ℚ) +
          (digitsVal "56".data : ℚ) / 10 ^ "56".data.length) := rfl
    rw [h1, show digitsVal "1234".data = 1234 from rfl,
      show digitsVal "56".data = 56 from rfl, show "56".data.length = 2 from rfl]
    norm_num
  · have h1 : extraer_precio_de_texto "350".data =
        some ((digitsVal "350".data : ℚ)) := rfl
    rw [h1, show digitsVal "350".data = 350 from rfl]
    norm_num

/-- Witness for C5: the no-match conjunct applied at the concrete input
"abc" (no pattern matches, result is `none`), next to the "350" example. -/
theorem C5_witness :
    extraer_precio_de_texto "abc".data = none ∧
    extraer_precio_de_texto "350".data = some (350.0 : ℚ) :=
  ⟨C5_pattern_order_and_examples.2.1 "abc".data rfl rfl rfl,
    C5_pattern_order_and_examples.2.2.2⟩

/-- C10: the extractor returns a value exactly when the text contains a
decimal digit (the bare-number catch-all matches any digit run), the value
is never negative (no pattern captures a sign), and on "-5" it returns the
positive value 5.0 rather than a negative price or a failure. -/
theorem C10_digit_iff_and_nonneg :
    (∀ t, (extraer_precio_de_texto t).isSome = true ↔ ∃ c ∈ t, c.isDigit = true) ∧
    (∀ t v, extraer_precio_de_texto t = some v → 0 ≤ v) ∧
    extraer_precio_de_texto "-5".data = some (5 : ℚ) := by
  refine ⟨fun t => ⟨digit_of_extraer_isSome, extraer_isSome_of_digit⟩, ?_, ?_⟩
  · intro t v h
    obtain ⟨cap, hp, _⟩ := extraer_some_source h
    exact pyFloat_nonneg hp
  · have h1 : extraer_precio_de_texto "-5".data =
        some ((digitsVal "5".data : ℚ)) := rfl
    rw [h1, show digitsVal "5".data = 5 from rfl]
    norm_num

/-- Witness for C10: the nonnegativity conjunct applied at the concrete
input "-5" and its extracted value 5. -/
theorem C10_witness :
    extraer_precio_de_texto "-5".data = some (5 : ℚ) ∧ (0 : ℚ) ≤ 5 :=
  ⟨C10_digit_iff_and_nonneg.2.2,
    C10_digit_iff_and_nonneg.2.1 "-5".data 5 C10_digit_iff_and_nonneg.2.2⟩

end Ferreteria
